import Mathlib

/-!
Shallow embedding of `src/aur/aur.cc` (the asynchronous request engine of
auracle).  The engine submits HTTP transfers through a multiplexed transport
(libcurl) and clone/pull subprocesses (fork + git), drives both through a
single reactor loop (libsystemd sd-event), and delivers each completion to a
one-shot, self-destroying `ResponseHandler`.

Modelling choices, all taken from the source:

* Each queued request allocates exactly one fresh `ResponseHandler`
  (`new ... ResponseHandler` in `QueueHttpRequest` / `QueueCloneRequest`);
  we identify the request handle (curl easy handle / sd-event child source)
  with the numeric id of its paired handler, drawn from a counter `next`.
* Handler lifecycle is recorded explicitly: `invocations` logs every
  `RunCallback` (one entry per invocation, in order), `destroyed` logs every
  `delete` of a handler (`RunCallback` deletes the handler right after the
  callback returns; `FinishRequest(..., dispatch_callback=false)` deletes it
  without invoking), and `callbackLog` records the `(handler, status, error)`
  triple passed to each callback.
* The environment `Env` supplies the caller's callback return values
  (`cb`), `curl_easy_strerror` and `strerror` as uninterpreted string
  functions.  Callbacks are modelled as pure: they return a dispatch status
  and do not re-enter the engine.
* libcurl's completion queue (`curl_multi_info_read`) is modelled as a list
  of `DoneMsg` records carried by the environment event; well-formedness
  (`wfEventB`) states what libcurl guarantees: a DONE message refers to a
  handle currently registered, and each handle is reported done at most once.
* libsystemd semantics are embedded where the engine observes them:
  `sd_event_exit` records an exit request and code; `sd_event_get_exit_code`
  leaves the out-parameter untouched (so `Wait`'s local `r = 0` survives)
  when no exit was ever requested; a negative return from an event-source
  callback makes sd-event disable that source, it does not stop the loop.
* `Wait`'s `while (!active_requests_.empty()) sd_event_run(...)` loop is
  modelled with an explicit stream of environment events: each `sd_event_run`
  dispatches the next event.  `wait` returns `some (ret, n)` where `n` counts
  the `sd_event_run` calls performed, or `none` when the stream is exhausted
  with requests still active (the real loop would keep waiting).
* The `while (!active_requests_.empty()) Cancel(*active_requests_.begin())`
  loop of `CancelAll` is modelled with fuel `active.length`; each `Cancel`
  removes exactly the member it is given, so this fuel is exact.
-/

namespace Auracle

/-- curl socket-action constants (curl.h): CURL_POLL_IN. -/
def CURL_POLL_IN : Int := 1
/-- CURL_POLL_OUT. -/
def CURL_POLL_OUT : Int := 2
/-- CURL_POLL_INOUT. -/
def CURL_POLL_INOUT : Int := 3
/-- CURL_POLL_REMOVE. -/
def CURL_POLL_REMOVE : Int := 4
/-- epoll readiness bits: EPOLLIN. -/
def EPOLLIN : Nat := 1
/-- EPOLLOUT. -/
def EPOLLOUT : Nat := 4
/-- CURLcode success value CURLE_OK. -/
def CURLE_OK : Int := 0
/-- CURLcode CURLE_ABORTED_BY_CALLBACK, used by `Aur::Cancel`. -/
def CURLE_ABORTED_BY_CALLBACK : Int := 42

/-- A member of the Active Request Set (`Aur::ActiveRequests`): a tagged
union of a curl easy handle and an sd-event child source, each identified
with the id of its paired `ResponseHandler`. -/
inductive ReqHandle
  | curl (id : Nat)
  | child (id : Nat)
deriving DecidableEq

/-- The handler id paired with a request handle. -/
def ReqHandle.rid : ReqHandle → Nat
  | .curl n => n
  | .child n => n

/-- One `CURLMSG_DONE` message from `curl_multi_info_read`: the finished
easy handle (identified by its handler id), the transport result
(`msg->data.result`), the final `CURLINFO_RESPONSE_CODE`, and the contents
curl left in the handler's `error_buffer`. -/
structure DoneMsg where
  hid : Nat
  result : Int
  code : Int
  ebuf : String
deriving DecidableEq

/-- State of the engine (`class Aur`) plus the explicit lifecycle ledgers
used to state the handler-lifetime properties. -/
structure EngineState where
  /-- fresh-id counter for handler/handle allocation -/
  next : Nat
  /-- `active_requests_` -/
  active : List ReqHandle
  /-- ledger: handler ids that have been `delete`d -/
  destroyed : List Nat
  /-- ledger: one entry per `RunCallback` invocation, in order -/
  invocations : List Nat
  /-- ledger: `(handler, status, error)` passed to each callback -/
  callbackLog : List (Nat × Int × String)
  /-- operation label given to each `CloneResponseHandler` at allocation -/
  ops : List (Nat × String)
  /-- argument vectors exec'd by forked children -/
  spawnLog : List (List String)
  /-- child sources released by `FinishRequest(sd_event_source*)` -/
  freedWatches : List Nat
  /-- sd-event: an exit was requested via `sd_event_exit` -/
  exitRequested : Bool
  /-- sd-event: the exit code recorded by `sd_event_exit` -/
  exitCode : Int
deriving DecidableEq

/-- The engine right after `Aur::Aur`: no active requests, no exit
requested. -/
def initState : EngineState where
  next := 0
  active := []
  destroyed := []
  invocations := []
  callbackLog := []
  ops := []
  spawnLog := []
  freedWatches := []
  exitRequested := false
  exitCode := 0

/-- External world: the caller's callback dispatch results and the libc /
libcurl error-string functions. -/
structure Env where
  /-- result of handler `h`'s callback when invoked with `(status, error)` -/
  cb : Nat → Int → String → Int
  /-- `curl_easy_strerror` -/
  curlStrerror : Int → String
  /-- `strerror` (libc) -/
  sysStrerror : Int → String

/-- `ResponseHandler::RunCallback`: invoke the callback, then `delete this`.
Returns the callback's dispatch status. -/
def runCallback (env : Env) (st : EngineState) (h : Nat) (status : Int)
    (error : String) : EngineState × Int :=
  ({ st with
      invocations := st.invocations ++ [h]
      destroyed := st.destroyed ++ [h]
      callbackLog := st.callbackLog ++ [(h, status, error)] },
   env.cb h status error)

/-- The error string built in `Aur::FinishRequest` for a dispatched HTTP
completion: empty on `CURLE_OK`; otherwise the handler's `error_buffer` if
non-empty, else `curl_easy_strerror(result)`. -/
def curlError (env : Env) (result : Int) (ebuf : String) : String :=
  if result = CURLE_OK then ""
  else if ebuf = "" then env.curlStrerror result
  else ebuf

/-- `Aur::FinishRequest(CURL*, CURLcode, bool)`: resolve the paired handler;
if dispatching, run its callback with the response code and the computed
error string (the handler deletes itself); otherwise delete the handler
silently.  Then erase the easy handle from the Active Request Set. -/
def finishRequestCurl (env : Env) (st : EngineState) (h : Nat) (result : Int)
    (code : Int) (ebuf : String) (dispatch : Bool) : EngineState × Int :=
  if dispatch then
    let res := runCallback env st h code (curlError env result ebuf)
    ({ res.1 with active := res.1.active.erase (ReqHandle.curl h) }, res.2)
  else
    ({ st with
        destroyed := st.destroyed ++ [h]
        active := st.active.erase (ReqHandle.curl h) }, 0)

/-- `Aur::FinishRequest(sd_event_source*)`: erase the child watch from the
Active Request Set and release (unref) the source.  The paired handler is
neither invoked nor deleted here. -/
def finishRequestChild (st : EngineState) (i : Nat) : EngineState × Int :=
  ({ st with
      active := st.active.erase (ReqHandle.child i)
      freedWatches := st.freedWatches ++ [i] }, 0)

/-- `Aur::Cancel`: dispatch on the request-handle kind.  A curl handle is
finished with `CURLE_ABORTED_BY_CALLBACK` and `dispatch_callback=false`; a
child watch is simply released. -/
def cancelReq (env : Env) (st : EngineState) (r : ReqHandle) : EngineState :=
  match r with
  | .curl h =>
      (finishRequestCurl env st h CURLE_ABORTED_BY_CALLBACK 0 "" false).1
  | .child i => (finishRequestChild st i).1

/-- `sd_event_exit`: record the exit request and code. -/
def sdEventExit (st : EngineState) (code : Int) : EngineState :=
  { st with exitRequested := true, exitCode := code }

/-- The `while (!active_requests_.empty()) Cancel(*begin())` loop of
`Aur::CancelAll`, with fuel.  Each `Cancel` removes exactly the member it is
handed, so fuel `active.length` runs the loop to emptiness. -/
def drainSteps (env : Env) : Nat → EngineState → EngineState
  | 0, st => st
  | fuel + 1, st =>
    match st.active with
    | [] => st
    | r :: _ => drainSteps env fuel (cancelReq env st r)

/-- `Aur::CancelAll`: cancel every member of the Active Request Set, then
`sd_event_exit(event_, 1)` (unconditionally). -/
def cancelAll (env : Env) (st : EngineState) : EngineState :=
  sdEventExit (drainSteps env st.active.length st) 1

/-- `Aur::CheckFinished`: drain `curl_multi_info_read`; finish each DONE
transfer with callback dispatch; on a negative dispatch status, `CancelAll`
and return that status without processing further messages. -/
def checkFinished (env : Env) (st : EngineState) :
    List DoneMsg → EngineState × Int
  | [] => (st, 0)
  | m :: rest =>
    let res := finishRequestCurl env st m.hid m.result m.code m.ebuf true
    if res.2 < 0 then (cancelAll env res.1, res.2)
    else checkFinished env res.1 rest

/-- The error string built by `Aur::OnCloneExit` from the child's exit
status. -/
def cloneExitError (status : Int) : String :=
  if status ≠ 0 then
    "git exited with unexpected exit status " ++ toString status
  else ""

/-- `Aur::OnCloneExit`: release the child watch, then invoke the handler's
callback with the raw exit status and `cloneExitError`.  The callback's
return value is handed back to sd-event (which never propagates it to
`Wait`). -/
def onCloneExit (env : Env) (st : EngineState) (i : Nat) (status : Int) :
    EngineState × Int :=
  let st1 := (finishRequestChild st i).1
  runCallback env st1 i status (cloneExitError status)

/-- `Aur::QueueHttpRequest`: for each URL produced by `request.Build`,
allocate one fresh handler, configure one fresh easy handle pointing at it,
add the transfer to the multi handle and the Active Request Set. -/
def queueHttp : List String → EngineState → EngineState
  | [], st => st
  | _ :: rest, st =>
    queueHttp rest
      { st with
          active := st.active ++ [ReqHandle.curl st.next]
          next := st.next + 1 }

/-- The `k` consecutive fresh transfer handles allocated by `queueHttp`
starting from id `n`. -/
def newHandles : Nat → Nat → List ReqHandle
  | _, 0 => []
  | n, k + 1 => ReqHandle.curl n :: newHandles (n + 1) k

/-- `Aur::QueueCloneRequest`: decide the operation label from
`fs::exists(reponame / ".git")`, allocate the handler with that label, fork.
On fork failure (`forkErrno = some e`, with `errno = e`), run the callback
synchronously with status `-e` and a message embedding `strerror(e)`, and
register nothing.  On success, the child execs the pull-style or clone-style
argument vector and the parent registers a child-exit watch in the Active
Request Set. -/
def queueClone (env : Env) (st : EngineState) (repo url : String)
    (existsGit : Bool) (forkErrno : Option Int) : EngineState :=
  let op := if existsGit then "update" else "clone"
  let h := st.next
  let st1 := { st with next := st.next + 1, ops := st.ops ++ [(h, op)] }
  match forkErrno with
  | some e =>
    (runCallback env st1 h (-e)
      ("failed to fork new process for git: " ++ env.sysStrerror e)).1
  | none =>
    let argv :=
      if existsGit then ["git", "-C", repo, "pull", "--quiet", "--ff-only"]
      else ["git", "clone", "--quiet", url]
    { st1 with
        spawnLog := st1.spawnLog ++ [argv]
        active := st1.active ++ [ReqHandle.child h] }

/-- One environment occurrence the engine reacts to: a caller submission, a
batch of curl completions (delivered through `OnCurlIO`/`OnCurlTimer` →
`CheckFinished`), a child exit, or a caller cancellation. -/
inductive Event
  | queueHttpEv (urls : List String)
  | queueCloneEv (repo url : String) (existsGit : Bool) (forkErrno : Option Int)
  | curlDone (msgs : List DoneMsg)
  | childExit (i : Nat) (status : Int)
  | cancelOne (r : ReqHandle)
  | cancelAllEv
deriving DecidableEq

/-- Dispatch one event.  Return values of event-source callbacks
(`OnCurlIO`, `OnCloneExit`) are dropped here, as sd-event drops them (a
negative value only disables the source). -/
def step (env : Env) (st : EngineState) : Event → EngineState
  | .queueHttpEv urls => queueHttp urls st
  | .queueCloneEv repo url g fe => queueClone env st repo url g fe
  | .curlDone msgs => (checkFinished env st msgs).1
  | .childExit i status => (onCloneExit env st i status).1
  | .cancelOne r => cancelReq env st r
  | .cancelAllEv => cancelAll env st

/-- Run the engine over a sequence of events. -/
def run (env : Env) (st : EngineState) (evs : List Event) : EngineState :=
  evs.foldl (step env) st

/-- `sd_event_get_exit_code`: yields the recorded exit code if an exit was
requested, otherwise fails leaving the out-parameter at its prior value. -/
def sdEventGetExitCode (st : EngineState) (r0 : Int) : Int :=
  if st.exitRequested then st.exitCode else r0

/-- The loop of `Aur::Wait`, counting `sd_event_run` calls: while the Active
Request Set is non-empty, dispatch the next environment event; once empty,
return `-r` where `r` is the exit code (local `r` starts at 0 and is only
overwritten if an exit was requested).  `none` means the event stream ran
out with requests still active. -/
def waitAux (env : Env) : List Event → EngineState → Nat → Option (Int × Nat)
  | evs, st, n =>
    if st.active.isEmpty then some (-(sdEventGetExitCode st 0), n)
    else
      match evs with
      | [] => none
      | e :: rest => waitAux env rest (step env st e) (n + 1)

/-- `Aur::Wait`. -/
def wait (env : Env) (evs : List Event) (st : EngineState) :
    Option (Int × Nat) :=
  waitAux env evs st 0

/-- Well-formedness of one environment event against the current state:
libcurl reports DONE only for registered easy handles and at most once per
handle; sd-event fires a child watch only while it is registered; `Cancel`
is called on a member of the set; a failed `fork` sets a positive `errno`. -/
def wfEventB (st : EngineState) : Event → Bool
  | .queueHttpEv _ => true
  | .queueCloneEv _ _ _ none => true
  | .queueCloneEv _ _ _ (some e) => decide (0 < e)
  | .curlDone msgs =>
      decide ((msgs.map DoneMsg.hid).Nodup) &&
        msgs.all (fun m => decide (ReqHandle.curl m.hid ∈ st.active))
  | .childExit i _ => decide (ReqHandle.child i ∈ st.active)
  | .cancelOne r => decide (r ∈ st.active)
  | .cancelAllEv => true

/-- Well-formedness of an event trace from a given state. -/
def wfTraceB (env : Env) : EngineState → List Event → Bool
  | _, [] => true
  | st, e :: rest => wfEventB st e && wfTraceB env (step env st e) rest

/-- The engine invariant tying the Active Request Set to handler lifecycle:
ids are allocated from `next`; active requests have pairwise-distinct,
live (not yet destroyed) handlers; a callback never ran twice; every
handler whose callback ran has been destroyed. -/
structure Inv (st : EngineState) : Prop where
  activeLt : ∀ r ∈ st.active, r.rid < st.next
  destroyedLt : ∀ h ∈ st.destroyed, h < st.next
  invocLt : ∀ h ∈ st.invocations, h < st.next
  idsNodup : (st.active.map ReqHandle.rid).Nodup
  invocNodup : st.invocations.Nodup
  invocDestroyed : ∀ h ∈ st.invocations, h ∈ st.destroyed
  activeLive : ∀ r ∈ st.active, r.rid ∉ st.destroyed

/- ------------------------------------------------------------------ -/
/- Socket bookkeeping (`Aur::SocketCallback`), modelled separately: it
   touches only the io-registration maps, never the handler state.      -/
/- ------------------------------------------------------------------ -/

/-- One sd-event io source: the duplicated fd it watches, its epoll
interest mask, and whether it is enabled. -/
structure IoSource where
  fd : Nat
  events : Nat
  enabled : Bool
deriving DecidableEq

/-- The io-registration state of the engine: `active_io_` (socket → source),
`translate_fds_` (duplicated fd → original socket), the live sd-event
sources, the sources already unref'd, the fds already closed, and fresh-id
counters for `fcntl(F_DUPFD_CLOEXEC)` results and new sources. -/
structure SockState where
  activeIo : List (Nat × Nat)
  translateFds : List (Nat × Nat)
  sources : List (Nat × IoSource)
  freed : List Nat
  closed : List Nat
  nextFd : Nat
  nextSrc : Nat
deriving DecidableEq

/-- Map lookup (`std::unordered_map::find`): value of the first binding of
key `k`. -/
def findVal {α : Type} (k : Nat) : List (Nat × α) → Option α
  | [] => none
  | (k2, v) :: rest => if k2 = k then some v else findVal k rest

/-- Map erasure (`std::unordered_map::erase`): drop every binding of key
`k` (a map holds at most one). -/
def eraseKey {α : Type} (k : Nat) : List (Nat × α) → List (Nat × α)
  | [] => []
  | (k2, v) :: rest =>
    if k2 = k then eraseKey k rest else (k2, v) :: eraseKey k rest

/-- Update the first binding of key `k` in an association list. -/
def updateAssoc (l : List (Nat × IoSource)) (k : Nat)
    (f : IoSource → IoSource) : List (Nat × IoSource) :=
  match l with
  | [] => []
  | (k2, v) :: rest =>
    if k2 = k then (k2, f v) :: rest else (k2, v) :: updateAssoc rest k f

/-- `sd_event_source_set_io_events` on a live source; on an id that is no
longer live this is a call through a dangling pointer in the original code
(the `CURL_POLL_REMOVE` path falls through to it) — the model takes the
benign reading and leaves the live state unchanged. -/
def setIoEvents (st : SockState) (io : Nat) (ev : Nat) : SockState :=
  { st with sources := updateAssoc st.sources io (fun s => { s with events := ev }) }

/-- `sd_event_source_set_enabled`, same liveness caveat as `setIoEvents`. -/
def setEnabled (st : SockState) (io : Nat) (b : Bool) : SockState :=
  { st with sources := updateAssoc st.sources io (fun s => { s with enabled := b }) }

/-- The `action_to_revents` switch in `Aur::SocketCallback`. -/
def actionToRevents (action : Int) : Nat :=
  if action = CURL_POLL_IN then EPOLLIN
  else if action = CURL_POLL_OUT then EPOLLOUT
  else if action = CURL_POLL_INOUT then EPOLLIN + EPOLLOUT
  else 0

/-- `Aur::SocketCallback`.  On `CURL_POLL_REMOVE` with a known socket:
disable and unref the source, erase the socket from `active_io_`, erase and
close the duplicated fd (the code then falls through and pokes the unref'd
source; the model reads those pokes as no-ops on the live state).  On other
actions: update the existing source's interest mask and re-enable it, or
else duplicate the socket's fd, register a fresh source for the requested
interest, and record duplicate→original.  The fd duplication and source
registration are modelled as succeeding. -/
def socketCallback (st : SockState) (s : Nat) (action : Int) :
    SockState × Int :=
  let ioOpt := findVal s st.activeIo
  let st1 :=
    if action = CURL_POLL_REMOVE then
      match ioOpt with
      | some io =>
        match findVal io st.sources with
        | some src =>
          { st with
              sources := eraseKey io st.sources
              freed := st.freed ++ [io]
              activeIo := eraseKey s st.activeIo
              translateFds := eraseKey src.fd st.translateFds
              closed := st.closed ++ [src.fd] }
        | none => st
      | none => st
    else st
  let events := actionToRevents action
  match ioOpt with
  | some io => (setEnabled (setIoEvents st1 io events) io true, 0)
  | none =>
    let fd := st1.nextFd
    let src := st1.nextSrc
    ({ st1 with
        sources := st1.sources ++ [(src, ⟨fd, events, true⟩)]
        activeIo := st1.activeIo ++ [(s, src)]
        translateFds := st1.translateFds ++ [(fd, s)]
        nextFd := st1.nextFd + 1
        nextSrc := st1.nextSrc + 1 }, 0)

/-- A concrete benign environment used for witnesses. -/
def env0 : Env where
  cb := fun _ _ _ => 0
  curlStrerror := fun _ => "curl transfer failed"
  sysStrerror := fun _ => "resource unavailable"

/-- A concrete environment whose callbacks all return `-7`. -/
def envNeg : Env where
  cb := fun _ _ _ => -7
  curlStrerror := fun _ => "curl transfer failed"
  sysStrerror := fun _ => "resource unavailable"

/- ------------------------------------------------------------------ -/
/- Basic effect lemmas                                                  -/
/- ------------------------------------------------------------------ -/

theorem cancelReq_active (env : Env) (st : EngineState) (r : ReqHandle) :
    (cancelReq env st r).active = st.active.erase r := by
  cases r <;> simp [cancelReq, finishRequestCurl, finishRequestChild, runCallback]

theorem cancelReq_invocations (env : Env) (st : EngineState) (r : ReqHandle) :
    (cancelReq env st r).invocations = st.invocations := by
  cases r <;> simp [cancelReq, finishRequestCurl, finishRequestChild, runCallback]

theorem cancelReq_callbackLog (env : Env) (st : EngineState) (r : ReqHandle) :
    (cancelReq env st r).callbackLog = st.callbackLog := by
  cases r <;> simp [cancelReq, finishRequestCurl, finishRequestChild, runCallback]

theorem cancelReq_next (env : Env) (st : EngineState) (r : ReqHandle) :
    (cancelReq env st r).next = st.next := by
  cases r <;> simp [cancelReq, finishRequestCurl, finishRequestChild, runCallback]

theorem cancelReq_exit (env : Env) (st : EngineState) (r : ReqHandle) :
    (cancelReq env st r).exitRequested = st.exitRequested ∧
      (cancelReq env st r).exitCode = st.exitCode := by
  cases r <;> simp [cancelReq, finishRequestCurl, finishRequestChild, runCallback]

theorem cancelReq_destroyed (env : Env) (st : EngineState) (r : ReqHandle) :
    (cancelReq env st r).destroyed = st.destroyed ∨
      (cancelReq env st r).destroyed = st.destroyed ++ [r.rid] := by
  cases r with
  | curl h =>
      right
      simp [cancelReq, finishRequestCurl, ReqHandle.rid]
  | child i =>
      left
      simp [cancelReq, finishRequestChild]

theorem drainSteps_invocations (env : Env) :
    ∀ fuel st, (drainSteps env fuel st).invocations = st.invocations := by
  intro fuel
  induction fuel with
  | zero => intro st; rfl
  | succ n ih =>
      intro st
      cases hact : st.active with
      | nil => simp [drainSteps, hact]
      | cons r rest => simp [drainSteps, hact, ih, cancelReq_invocations]

theorem drainSteps_callbackLog (env : Env) :
    ∀ fuel st, (drainSteps env fuel st).callbackLog = st.callbackLog := by
  intro fuel
  induction fuel with
  | zero => intro st; rfl
  | succ n ih =>
      intro st
      cases hact : st.active with
      | nil => simp [drainSteps, hact]
      | cons r rest => simp [drainSteps, hact, ih, cancelReq_callbackLog]

/-- Each `Cancel` in the `CancelAll` loop removes the member it is handed,
so fuel `active.length` empties the Active Request Set. -/
theorem drainSteps_active_nil (env : Env) :
    ∀ fuel st, st.active.length ≤ fuel → (drainSteps env fuel st).active = [] := by
  intro fuel
  induction fuel with
  | zero =>
      intro st hle
      cases hact : st.active with
      | nil => simpa [drainSteps] using hact
      | cons r rest => rw [hact] at hle; simp at hle
  | succ n ih =>
      intro st hle
      cases hact : st.active with
      | nil => simp [drainSteps, hact]
      | cons r rest =>
          simp only [drainSteps, hact]
          apply ih
          rw [cancelReq_active, hact, List.erase_cons_head]
          rw [hact] at hle
          simpa using Nat.le_of_succ_le_succ hle

theorem cancelAll_active (env : Env) (st : EngineState) :
    (cancelAll env st).active = [] := by
  simp [cancelAll, sdEventExit, drainSteps_active_nil env st.active.length st le_rfl]

theorem cancelAll_exit (env : Env) (st : EngineState) :
    (cancelAll env st).exitRequested = true ∧ (cancelAll env st).exitCode = 1 := by
  simp [cancelAll, sdEventExit]

theorem cancelAll_invocations (env : Env) (st : EngineState) :
    (cancelAll env st).invocations = st.invocations := by
  simp [cancelAll, sdEventExit, drainSteps_invocations]

theorem cancelAll_callbackLog (env : Env) (st : EngineState) :
    (cancelAll env st).callbackLog = st.callbackLog := by
  simp [cancelAll, sdEventExit, drainSteps_callbackLog]

/-- `Wait` on an empty Active Request Set performs no `sd_event_run` call
and returns the negated exit code (0 when no exit was ever requested). -/
theorem wait_empty (env : Env) (evs : List Event) (st : EngineState)
    (h : st.active = []) :
    wait env evs st = some (-(sdEventGetExitCode st 0), 0) := by
  cases evs <;> simp [wait, waitAux, h]

/- ------------------------------------------------------------------ -/
/- Invariant machinery                                                  -/
/- ------------------------------------------------------------------ -/

theorem invInit : Inv initState := by
  constructor <;> simp [initState]

theorem inv_sdEventExit {st : EngineState} (hI : Inv st) (c : Int) :
    Inv (sdEventExit st c) :=
  ⟨hI.activeLt, hI.destroyedLt, hI.invocLt, hI.idsNodup, hI.invocNodup,
    hI.invocDestroyed, hI.activeLive⟩

/-- Completing the handler of an active request (invoke callback, destroy
handler, drop the request from the set) preserves the engine invariant. -/
theorem inv_complete {st st2 : EngineState} (hI : Inv st) (r : ReqHandle)
    (hr : r ∈ st.active)
    (hnext : st2.next = st.next)
    (hact : st2.active = st.active.erase r)
    (hdes : st2.destroyed = st.destroyed ++ [r.rid])
    (hinv : st2.invocations = st.invocations ++ [r.rid]) :
    Inv st2 := by
  have hlt : r.rid < st.next := hI.activeLt r hr
  have hndA : st.active.Nodup := hI.idsNodup.of_map
  have hridne : ∀ r2 ∈ st.active.erase r, r2.rid ≠ r.rid := by
    intro r2 hr2 he
    have h2 := (hndA.mem_erase_iff).mp hr2
    exact h2.1 (List.inj_on_of_nodup_map hI.idsNodup h2.2 hr he)
  constructor
  · intro r2 h2
    rw [hact] at h2; rw [hnext]
    exact hI.activeLt r2 (List.mem_of_mem_erase h2)
  · intro h2 hm
    rw [hdes] at hm; rw [hnext]
    rcases List.mem_append.mp hm with hm | hm
    · exact hI.destroyedLt _ hm
    · simp at hm; subst hm; exact hlt
  · intro h2 hm
    rw [hinv] at hm; rw [hnext]
    rcases List.mem_append.mp hm with hm | hm
    · exact hI.invocLt _ hm
    · simp at hm; subst hm; exact hlt
  · rw [hact]
    exact hI.idsNodup.sublist ((List.erase_sublist r st.active).map ReqHandle.rid)
  · rw [hinv]
    refine List.Nodup.append hI.invocNodup (List.nodup_singleton _) ?_
    intro a ha hb
    simp at hb; subst hb
    exact (hI.activeLive r hr) (hI.invocDestroyed _ ha)
  · intro h2 hm
    rw [hinv] at hm; rw [hdes]
    rcases List.mem_append.mp hm with hm | hm
    · exact List.mem_append.mpr (Or.inl (hI.invocDestroyed _ hm))
    · exact List.mem_append.mpr (Or.inr hm)
  · intro r2 h2 hmem
    rw [hact] at h2; rw [hdes] at hmem
    rcases List.mem_append.mp hmem with hm | hm
    · exact hI.activeLive r2 (List.mem_of_mem_erase h2) hm
    · simp at hm; exact hridne r2 h2 hm

/-- Cancelling an active request (destroy its handler, or just drop the
watch, without invoking) preserves the engine invariant. -/
theorem inv_erase_destroy {st st2 : EngineState} (hI : Inv st) (r : ReqHandle)
    (hr : r ∈ st.active)
    (hnext : st2.next = st.next)
    (hact : st2.active = st.active.erase r)
    (hdes : st2.destroyed = st.destroyed ++ [r.rid] ∨ st2.destroyed = st.destroyed)
    (hinv : st2.invocations = st.invocations) :
    Inv st2 := by
  have hlt : r.rid < st.next := hI.activeLt r hr
  have hndA : st.active.Nodup := hI.idsNodup.of_map
  have hridne : ∀ r2 ∈ st.active.erase r, r2.rid ≠ r.rid := by
    intro r2 hr2 he
    have h2 := (hndA.mem_erase_iff).mp hr2
    exact h2.1 (List.inj_on_of_nodup_map hI.idsNodup h2.2 hr he)
  constructor
  · intro r2 h2
    rw [hact] at h2; rw [hnext]
    exact hI.activeLt r2 (List.mem_of_mem_erase h2)
  · intro h2 hm
    rw [hnext]
    rcases hdes with hd | hd <;> rw [hd] at hm
    · rcases List.mem_append.mp hm with hm | hm
      · exact hI.destroyedLt _ hm
      · simp at hm; subst hm; exact hlt
    · exact hI.destroyedLt _ hm
  · intro h2 hm
    rw [hinv] at hm; rw [hnext]
    exact hI.invocLt _ hm
  · rw [hact]
    exact hI.idsNodup.sublist ((List.erase_sublist r st.active).map ReqHandle.rid)
  · rw [hinv]; exact hI.invocNodup
  · intro h2 hm
    rw [hinv] at hm
    rcases hdes with hd | hd <;> rw [hd]
    · exact List.mem_append.mpr (Or.inl (hI.invocDestroyed _ hm))
    · exact hI.invocDestroyed _ hm
  · intro r2 h2 hmem
    rw [hact] at h2
    rcases hdes with hd | hd <;> rw [hd] at hmem
    · rcases List.mem_append.mp hmem with hm | hm
      · exact hI.activeLive r2 (List.mem_of_mem_erase h2) hm
      · simp at hm; exact hridne r2 h2 hm
    · exact hI.activeLive r2 (List.mem_of_mem_erase h2) hmem

theorem inv_cancelReq (env : Env) {st : EngineState} (hI : Inv st)
    {r : ReqHandle} (hr : r ∈ st.active) : Inv (cancelReq env st r) := by
  refine inv_erase_destroy hI r hr (cancelReq_next env st r)
    (cancelReq_active env st r) ?_ (cancelReq_invocations env st r)
  rcases cancelReq_destroyed env st r with h | h
  · exact Or.inr h
  · exact Or.inl h

theorem inv_drainSteps (env : Env) :
    ∀ fuel st, Inv st → Inv (drainSteps env fuel st) := by
  intro fuel
  induction fuel with
  | zero => intro st h; exact h
  | succ n ih =>
      intro st hI
      cases hact : st.active with
      | nil => simpa [drainSteps, hact] using hI
      | cons r rest =>
          simp only [drainSteps, hact]
          exact ih _ (inv_cancelReq env hI (by rw [hact]; exact List.mem_cons_self r rest))

theorem drainSteps_destroyed (env : Env) :
    ∀ fuel st, ∃ d, (drainSteps env fuel st).destroyed = st.destroyed ++ d := by
  intro fuel
  induction fuel with
  | zero => intro st; exact ⟨[], by simp [drainSteps]⟩
  | succ n ih =>
      intro st
      cases hact : st.active with
      | nil => exact ⟨[], by simp [drainSteps, hact]⟩
      | cons r rest =>
          simp only [drainSteps, hact]
          obtain ⟨d2, hd2⟩ := ih (cancelReq env st r)
          rcases cancelReq_destroyed env st r with h | h
          · exact ⟨d2, by rw [hd2, h]⟩
          · exact ⟨[r.rid] ++ d2, by rw [hd2, h, List.append_assoc]⟩

theorem cancelAll_destroyed (env : Env) (st : EngineState) :
    ∃ d, (cancelAll env st).destroyed = st.destroyed ++ d := by
  obtain ⟨d, hd⟩ := drainSteps_destroyed env st.active.length st
  exact ⟨d, by simpa [cancelAll, sdEventExit] using hd⟩

theorem inv_cancelAll (env : Env) {st : EngineState} (hI : Inv st) :
    Inv (cancelAll env st) :=
  inv_sdEventExit (inv_drainSteps env st.active.length st hI) 1

theorem finishRequestCurl_dispatch (env : Env) (st : EngineState) (h : Nat)
    (result code : Int) (ebuf : String) :
    (finishRequestCurl env st h result code ebuf true).1 =
      { st with
          invocations := st.invocations ++ [h]
          destroyed := st.destroyed ++ [h]
          callbackLog := st.callbackLog ++ [(h, code, curlError env result ebuf)]
          active := st.active.erase (ReqHandle.curl h) } ∧
    (finishRequestCurl env st h result code ebuf true).2 =
      env.cb h code (curlError env result ebuf) :=
  ⟨rfl, rfl⟩

theorem inv_finishCurl (env : Env) {st : EngineState} (hI : Inv st) {h : Nat}
    (hm : ReqHandle.curl h ∈ st.active) (result code : Int) (ebuf : String) :
    Inv (finishRequestCurl env st h result code ebuf true).1 := by
  rw [(finishRequestCurl_dispatch env st h result code ebuf).1]
  exact inv_complete hI (ReqHandle.curl h) hm rfl rfl rfl rfl

/-- `CheckFinished` preserves the invariant; the callbacks it runs belong to
handlers that were live at entry, and it only ever appends to the
destruction ledger. -/
theorem checkFinished_inv (env : Env) :
    ∀ msgs st, Inv st → (msgs.map DoneMsg.hid).Nodup →
      (∀ m ∈ msgs, ReqHandle.curl m.hid ∈ st.active) →
      Inv (checkFinished env st msgs).1 ∧
      (∃ news, (checkFinished env st msgs).1.invocations = st.invocations ++ news ∧
        ∀ x ∈ news, x ∉ st.destroyed) ∧
      (∃ d, (checkFinished env st msgs).1.destroyed = st.destroyed ++ d) := by
  intro msgs
  induction msgs with
  | nil =>
      intro st hI _ _
      exact ⟨hI, ⟨[], by simp [checkFinished], by simp⟩, ⟨[], by simp [checkFinished]⟩⟩
  | cons m rest ih =>
      intro st hI hnd hmem
      have hm : ReqHandle.curl m.hid ∈ st.active := hmem m (List.mem_cons_self _ _)
      have hI1 : Inv (finishRequestCurl env st m.hid m.result m.code m.ebuf true).1 :=
        inv_finishCurl env hI hm m.result m.code m.ebuf
      have hspec := (finishRequestCurl_dispatch env st m.hid m.result m.code m.ebuf).1
      have hnotdes : m.hid ∉ st.destroyed := hI.activeLive _ hm
      have hcons : m.hid ∉ List.map DoneMsg.hid rest ∧
          (List.map DoneMsg.hid rest).Nodup := by
        rw [List.map_cons, List.nodup_cons] at hnd
        exact hnd
      by_cases hneg : (finishRequestCurl env st m.hid m.result m.code m.ebuf true).2 < 0
      · have hcf : checkFinished env st (m :: rest) =
            (cancelAll env (finishRequestCurl env st m.hid m.result m.code m.ebuf true).1,
             (finishRequestCurl env st m.hid m.result m.code m.ebuf true).2) := by
          simp only [checkFinished, if_pos hneg]
        rw [hcf]
        refine ⟨inv_cancelAll env hI1, ⟨[m.hid], ?_, ?_⟩, ?_⟩
        · rw [cancelAll_invocations, hspec]
        · intro x hx; simp at hx; subst hx; exact hnotdes
        · obtain ⟨d, hd⟩ := cancelAll_destroyed env
            (finishRequestCurl env st m.hid m.result m.code m.ebuf true).1
          refine ⟨[m.hid] ++ d, ?_⟩
          rw [hd, hspec]
          simp [List.append_assoc]
      · have hcf : checkFinished env st (m :: rest) =
            checkFinished env (finishRequestCurl env st m.hid m.result m.code m.ebuf true).1 rest := by
          simp only [checkFinished, if_neg hneg]
        rw [hcf]
        have hmem1 : ∀ m2 ∈ rest,
            ReqHandle.curl m2.hid ∈
              (finishRequestCurl env st m.hid m.result m.code m.ebuf true).1.active := by
          intro m2 hm2
          rw [hspec]
          have hne : m2.hid ≠ m.hid := by
            intro hh
            exact hcons.1 (hh ▸ List.mem_map_of_mem DoneMsg.hid hm2)
          have : ReqHandle.curl m2.hid ≠ ReqHandle.curl m.hid := by
            simpa using hne
          exact (List.mem_erase_of_ne this).mpr (hmem m2 (List.mem_cons_of_mem m hm2))
        obtain ⟨hI2, ⟨news, hnews, hnewsd⟩, ⟨d2, hd2⟩⟩ :=
          ih (finishRequestCurl env st m.hid m.result m.code m.ebuf true).1 hI1 hcons.2 hmem1
        refine ⟨hI2, ⟨[m.hid] ++ news, ?_, ?_⟩, ⟨[m.hid] ++ d2, ?_⟩⟩
        · rw [hnews, hspec]; simp [List.append_assoc]
        · intro x hx
          rcases List.mem_append.mp hx with hx | hx
          · simp at hx; subst hx; exact hnotdes
          · intro hmemx
            refine hnewsd x hx ?_
            rw [hspec]
            exact List.mem_append.mpr (Or.inl hmemx)
        · rw [hd2, hspec]; simp [List.append_assoc]

theorem queueClone_forkOk (env : Env) (st : EngineState) (repo url : String)
    (g : Bool) :
    queueClone env st repo url g none =
      { st with
          next := st.next + 1
          ops := st.ops ++ [(st.next, if g then "update" else "clone")]
          spawnLog := st.spawnLog ++
            [if g then ["git", "-C", repo, "pull", "--quiet", "--ff-only"]
             else ["git", "clone", "--quiet", url]]
          active := st.active ++ [ReqHandle.child st.next] } := rfl

theorem queueClone_forkFail (env : Env) (st : EngineState) (repo url : String)
    (g : Bool) (e : Int) :
    queueClone env st repo url g (some e) =
      { st with
          next := st.next + 1
          ops := st.ops ++ [(st.next, if g then "update" else "clone")]
          invocations := st.invocations ++ [st.next]
          destroyed := st.destroyed ++ [st.next]
          callbackLog := st.callbackLog ++
            [(st.next, -e, "failed to fork new process for git: " ++ env.sysStrerror e)] } := rfl

theorem onCloneExit_spec (env : Env) (st : EngineState) (i : Nat) (status : Int) :
    (onCloneExit env st i status).1 =
      { st with
          active := st.active.erase (ReqHandle.child i)
          freedWatches := st.freedWatches ++ [i]
          invocations := st.invocations ++ [i]
          destroyed := st.destroyed ++ [i]
          callbackLog := st.callbackLog ++ [(i, status, cloneExitError status)] } ∧
    (onCloneExit env st i status).2 = env.cb i status (cloneExitError status) :=
  ⟨rfl, rfl⟩

/-- Allocating one fresh request handle preserves the invariant. -/
theorem inv_pushHandle {st st2 : EngineState} (hI : Inv st) (r : ReqHandle)
    (hr : r.rid = st.next)
    (hact : st2.active = st.active ++ [r])
    (hnext : st2.next = st.next + 1)
    (hdes : st2.destroyed = st.destroyed)
    (hinv : st2.invocations = st.invocations) :
    Inv st2 := by
  constructor
  · intro r2 h2
    rw [hact] at h2; rw [hnext]
    rcases List.mem_append.mp h2 with h2 | h2
    · exact Nat.lt_succ_of_lt (hI.activeLt r2 h2)
    · simp at h2; subst h2; rw [hr]; exact Nat.lt_succ_self _
  · intro h2 hm
    rw [hdes] at hm; rw [hnext]
    exact Nat.lt_succ_of_lt (hI.destroyedLt _ hm)
  · intro h2 hm
    rw [hinv] at hm; rw [hnext]
    exact Nat.lt_succ_of_lt (hI.invocLt _ hm)
  · rw [hact, List.map_append]
    refine List.Nodup.append hI.idsNodup (by simp) ?_
    intro a ha hb
    simp at hb
    obtain ⟨r2, hr2, hr2e⟩ := List.mem_map.mp ha
    have := hI.activeLt r2 hr2
    rw [hr2e, hb, hr] at this
    exact (lt_irrefl _ this)
  · rw [hinv]; exact hI.invocNodup
  · intro h2 hm
    rw [hinv] at hm; rw [hdes]
    exact hI.invocDestroyed _ hm
  · intro r2 h2 hmem
    rw [hact] at h2; rw [hdes] at hmem
    rcases List.mem_append.mp h2 with h2 | h2
    · exact hI.activeLive r2 h2 hmem
    · simp at h2; subst h2
      rw [hr] at hmem
      exact lt_irrefl _ (hI.destroyedLt _ hmem)

theorem queueHttp_spec :
    ∀ (urls : List String) (st : EngineState),
      (queueHttp urls st).active = st.active ++ newHandles st.next urls.length ∧
      (queueHttp urls st).next = st.next + urls.length ∧
      (queueHttp urls st).invocations = st.invocations ∧
      (queueHttp urls st).destroyed = st.destroyed ∧
      (queueHttp urls st).exitRequested = st.exitRequested ∧
      (queueHttp urls st).exitCode = st.exitCode ∧
      (queueHttp urls st).callbackLog = st.callbackLog := by
  intro urls
  induction urls with
  | nil => intro st; simp [queueHttp, newHandles]
  | cons u rest ih =>
      intro st
      obtain ⟨h1, h2, h3, h4, h5, h6, h7⟩ :=
        ih { st with
              active := st.active ++ [ReqHandle.curl st.next]
              next := st.next + 1 }
      simp only [queueHttp, List.length_cons]
      refine ⟨?_, ?_, h3, h4, h5, h6, h7⟩
      · rw [h1]
        simp [newHandles, List.append_assoc]
      · rw [h2]
        show st.next + 1 + rest.length = st.next + (rest.length + 1)
        omega

theorem inv_queueHttp :
    ∀ (urls : List String) (st : EngineState), Inv st → Inv (queueHttp urls st) := by
  intro urls
  induction urls with
  | nil => intro st hI; exact hI
  | cons u rest ih =>
      intro st hI
      exact ih _ (inv_pushHandle hI (ReqHandle.curl st.next) rfl rfl rfl rfl rfl)

theorem inv_forkFail {st st2 : EngineState} (hI : Inv st)
    (hnext : st2.next = st.next + 1)
    (hact : st2.active = st.active)
    (hdes : st2.destroyed = st.destroyed ++ [st.next])
    (hinv : st2.invocations = st.invocations ++ [st.next]) :
    Inv st2 := by
  constructor
  · intro r2 h2
    rw [hact] at h2; rw [hnext]
    exact Nat.lt_succ_of_lt (hI.activeLt r2 h2)
  · intro h2 hm
    rw [hdes] at hm; rw [hnext]
    rcases List.mem_append.mp hm with hm | hm
    · exact Nat.lt_succ_of_lt (hI.destroyedLt _ hm)
    · simp at hm; subst hm; exact Nat.lt_succ_self _
  · intro h2 hm
    rw [hinv] at hm; rw [hnext]
    rcases List.mem_append.mp hm with hm | hm
    · exact Nat.lt_succ_of_lt (hI.invocLt _ hm)
    · simp at hm; subst hm; exact Nat.lt_succ_self _
  · rw [hact]; exact hI.idsNodup
  · rw [hinv]
    refine List.Nodup.append hI.invocNodup (by simp) ?_
    intro a ha hb
    simp at hb; subst hb
    exact lt_irrefl _ (hI.invocLt _ ha)
  · intro h2 hm
    rw [hinv] at hm; rw [hdes]
    rcases List.mem_append.mp hm with hm | hm
    · exact List.mem_append.mpr (Or.inl (hI.invocDestroyed _ hm))
    · exact List.mem_append.mpr (Or.inr hm)
  · intro r2 h2 hmem
    rw [hact] at h2; rw [hdes] at hmem
    rcases List.mem_append.mp hmem with hm | hm
    · exact hI.activeLive r2 h2 hm
    · simp at hm
      exact lt_irrefl _ (hm ▸ hI.activeLt r2 h2)

/-- One dispatched event preserves the invariant; the callbacks it runs
belong to handlers live at entry; the destruction ledger only grows. -/
theorem step_inv (env : Env) (st : EngineState) (e : Event)
    (hI : Inv st) (hwf : wfEventB st e = true) :
    Inv (step env st e) ∧
    (∃ news, (step env st e).invocations = st.invocations ++ news ∧
      ∀ x ∈ news, x ∉ st.destroyed) ∧
    (∃ d, (step env st e).destroyed = st.destroyed ++ d) := by
  cases e with
  | queueHttpEv urls =>
      obtain ⟨_, _, h3, h4, _, _, _⟩ := queueHttp_spec urls st
      exact ⟨inv_queueHttp urls st hI,
        ⟨[], by simp [step, h3], by simp⟩, ⟨[], by simp [step, h4]⟩⟩
  | queueCloneEv repo url g fe =>
      cases fe with
      | none =>
          have hspec := queueClone_forkOk env st repo url g
          refine ⟨?_, ⟨[], by simp [step, hspec], by simp⟩, ⟨[], by simp [step, hspec]⟩⟩
          show Inv (queueClone env st repo url g none)
          rw [hspec]
          exact inv_pushHandle hI (ReqHandle.child st.next) rfl rfl rfl rfl rfl
      | some e2 =>
          have hspec := queueClone_forkFail env st repo url g e2
          refine ⟨?_, ⟨[st.next], by simp [step, hspec], ?_⟩, ⟨[st.next], by simp [step, hspec]⟩⟩
          · show Inv (queueClone env st repo url g (some e2))
            rw [hspec]
            exact inv_forkFail hI rfl rfl rfl rfl
          · intro x hx
            simp at hx; subst hx
            intro hmem
            exact lt_irrefl _ (hI.destroyedLt _ hmem)
  | curlDone msgs =>
      have hwf2 : (List.map DoneMsg.hid msgs).Nodup ∧
          ∀ m ∈ msgs, ReqHandle.curl m.hid ∈ st.active := by
        simpa [wfEventB] using hwf
      exact checkFinished_inv env msgs st hI hwf2.1 hwf2.2
  | childExit i status =>
      have hmem : ReqHandle.child i ∈ st.active := by
        simpa [wfEventB] using hwf
      have hspec := (onCloneExit_spec env st i status).1
      refine ⟨?_, ⟨[i], by simp [step, hspec], ?_⟩, ⟨[i], by simp [step, hspec]⟩⟩
      · show Inv (onCloneExit env st i status).1
        rw [hspec]
        exact inv_complete hI (ReqHandle.child i) hmem rfl rfl rfl rfl
      · intro x hx
        simp at hx; subst hx
        exact hI.activeLive _ hmem
  | cancelOne r =>
      have hmem : r ∈ st.active := by simpa [wfEventB] using hwf
      refine ⟨inv_cancelReq env hI hmem,
        ⟨[], by simp [step, cancelReq_invocations], by simp⟩, ?_⟩
      rcases cancelReq_destroyed env st r with h | h
      · exact ⟨[], by simp [step, h]⟩
      · exact ⟨[r.rid], by simp [step, h]⟩
  | cancelAllEv =>
      refine ⟨inv_cancelAll env hI,
        ⟨[], by simp [step, cancelAll_invocations], by simp⟩, ?_⟩
      obtain ⟨d, hd⟩ := cancelAll_destroyed env st
      exact ⟨d, by simp [step, hd]⟩

theorem wfTraceB_append (env : Env) :
    ∀ (e1 e2 : List Event) (st : EngineState),
      wfTraceB env st (e1 ++ e2) = true →
      wfTraceB env st e1 = true ∧ wfTraceB env (run env st e1) e2 = true := by
  intro e1
  induction e1 with
  | nil => intro e2 st h; exact ⟨rfl, h⟩
  | cons e rest ih =>
      intro e2 st h
      simp only [List.cons_append, wfTraceB, Bool.and_eq_true] at h
      obtain ⟨h1, h2⟩ := h
      obtain ⟨h3, h4⟩ := ih e2 (step env st e) h2
      refine ⟨?_, ?_⟩
      · simp only [wfTraceB, Bool.and_eq_true]
        exact ⟨h1, h3⟩
      · simpa [run] using h4

/-- Along any well-formed trace, the invariant holds, callbacks only run
for handlers that were live at the start, and destruction only grows. -/
theorem run_inv (env : Env) :
    ∀ (evs : List Event) (st : EngineState), Inv st → wfTraceB env st evs = true →
      Inv (run env st evs) ∧
      (∃ news, (run env st evs).invocations = st.invocations ++ news ∧
        ∀ x ∈ news, x ∉ st.destroyed) ∧
      (∃ d, (run env st evs).destroyed = st.destroyed ++ d) := by
  intro evs
  induction evs with
  | nil =>
      intro st hI _
      exact ⟨hI, ⟨[], by simp [run], by simp⟩, ⟨[], by simp [run]⟩⟩
  | cons e rest ih =>
      intro st hI hwf
      simp only [wfTraceB, Bool.and_eq_true] at hwf
      obtain ⟨hwf1, hwf2⟩ := hwf
      obtain ⟨hI1, ⟨n1, hn1, hn1d⟩, ⟨d1, hd1⟩⟩ := step_inv env st e hI hwf1
      obtain ⟨hI2, ⟨n2, hn2, hn2d⟩, ⟨d2, hd2⟩⟩ := ih (step env st e) hI1 hwf2
      have hrun : run env st (e :: rest) = run env (step env st e) rest := rfl
      refine ⟨by rw [hrun]; exact hI2, ⟨n1 ++ n2, ?_, ?_⟩, ⟨d1 ++ d2, ?_⟩⟩
      · rw [hrun, hn2, hn1, List.append_assoc]
      · intro x hx
        rcases List.mem_append.mp hx with hx | hx
        · exact hn1d x hx
        · intro hmemx
          exact hn2d x hx (by rw [hd1]; exact List.mem_append.mpr (Or.inl hmemx))
      · rw [hrun, hd2, hd1, List.append_assoc]

/- ------------------------------------------------------------------ -/
/- Socket-callback lemmas                                               -/
/- ------------------------------------------------------------------ -/

theorem findVal_eraseKey_self {α : Type} (k : Nat) :
    ∀ l : List (Nat × α), findVal k (eraseKey k l) = none := by
  intro l
  induction l with
  | nil => rfl
  | cons p rest ih =>
      obtain ⟨k2, v⟩ := p
      by_cases h : k2 = k
      · simp [eraseKey, h, ih]
      · simp [eraseKey, findVal, h, ih]

theorem findVal_updateAssoc_self (k : Nat) (f : IoSource → IoSource) :
    ∀ l, findVal k (updateAssoc l k f) = (findVal k l).map f := by
  intro l
  induction l with
  | nil => rfl
  | cons p rest ih =>
      obtain ⟨k2, v⟩ := p
      by_cases h : k2 = k
      · simp [updateAssoc, findVal, h]
      · simp [updateAssoc, findVal, h, ih]

theorem updateAssoc_of_none (k : Nat) (f : IoSource → IoSource) :
    ∀ l, findVal k l = none → updateAssoc l k f = l := by
  intro l
  induction l with
  | nil => intro _; rfl
  | cons p rest ih =>
      obtain ⟨k2, v⟩ := p
      intro h
      by_cases hk : k2 = k
      · rw [findVal, if_pos hk] at h
        exact absurd h (by simp)
      · rw [findVal, if_neg hk] at h
        simp [updateAssoc, hk, ih h]

/-- `CURL_POLL_REMOVE` on a registered socket: the live state after the
whole callback (the fall-through pokes at the unref'd source are no-ops on
live state). -/
theorem socketCallback_remove_spec (st : SockState) (s io : Nat)
    (src : IoSource)
    (hio : findVal s st.activeIo = some io)
    (hsrc : findVal io st.sources = some src) :
    socketCallback st s CURL_POLL_REMOVE =
      ({ st with
          sources := eraseKey io st.sources
          freed := st.freed ++ [io]
          activeIo := eraseKey s st.activeIo
          translateFds := eraseKey src.fd st.translateFds
          closed := st.closed ++ [src.fd] }, 0) := by
  simp only [socketCallback, hio, hsrc, if_pos rfl]
  have h1 : findVal io (eraseKey io st.sources) = none :=
    findVal_eraseKey_self io st.sources
  simp [setIoEvents, setEnabled, updateAssoc_of_none io _ _ h1]

/-- Add/modify interest on an already-registered socket: only the interest
mask of the existing source is touched (it is re-enabled, which is a no-op
for a live registered source). -/
theorem socketCallback_update_spec (st : SockState) (s io : Nat)
    (action : Int)
    (hio : findVal s st.activeIo = some io)
    (hne : action ≠ CURL_POLL_REMOVE) :
    socketCallback st s action =
      (setEnabled (setIoEvents st io (actionToRevents action)) io true, 0) := by
  simp only [socketCallback, hio, if_neg hne]

/-- Add/modify interest on an unknown socket: duplicate the descriptor,
register the duplicate for the requested interest, record
duplicate→original. -/
theorem socketCallback_add_spec (st : SockState) (s : Nat) (action : Int)
    (hio : findVal s st.activeIo = none)
    (hne : action ≠ CURL_POLL_REMOVE) :
    socketCallback st s action =
      ({ st with
          sources := st.sources ++ [(st.nextSrc, ⟨st.nextFd, actionToRevents action, true⟩)]
          activeIo := st.activeIo ++ [(s, st.nextSrc)]
          translateFds := st.translateFds ++ [(st.nextFd, s)]
          nextFd := st.nextFd + 1
          nextSrc := st.nextSrc + 1 }, 0) := by
  simp only [socketCallback, hio, if_neg hne]

/- ------------------------------------------------------------------ -/
/- Remaining helpers                                                    -/
/- ------------------------------------------------------------------ -/

theorem string_append_left_ne (s t : String) (h : s ≠ "") : s ++ t ≠ "" := by
  intro hh
  apply h
  have hd := congrArg String.data hh
  rw [String.data_append] at hd
  exact String.ext (List.append_eq_nil.mp hd).1

theorem checkFinished_invocations_mono (env : Env) :
    ∀ msgs st, ∃ tail,
      (checkFinished env st msgs).1.invocations = st.invocations ++ tail := by
  intro msgs
  induction msgs with
  | nil => intro st; exact ⟨[], by simp [checkFinished]⟩
  | cons m rest ih =>
      intro st
      have hspec := (finishRequestCurl_dispatch env st m.hid m.result m.code m.ebuf).1
      by_cases hneg : (finishRequestCurl env st m.hid m.result m.code m.ebuf true).2 < 0
      · refine ⟨[m.hid], ?_⟩
        simp only [checkFinished, if_pos hneg]
        rw [cancelAll_invocations, hspec]
      · obtain ⟨tail, htail⟩ :=
          ih (finishRequestCurl env st m.hid m.result m.code m.ebuf true).1
        refine ⟨[m.hid] ++ tail, ?_⟩
        simp only [checkFinished, if_neg hneg]
        rw [htail, hspec]
        simp [List.append_assoc]

theorem cancelAll_idem (env : Env) (st2 : EngineState) :
    cancelAll env (cancelAll env st2) = cancelAll env st2 := by
  have h1 := cancelAll_active env st2
  simp only [cancelAll] at h1 ⊢
  rw [h1]
  simp only [List.length_nil, drainSteps]
  rfl

/- ------------------------------------------------------------------ -/
/- Claims                                                               -/
/- ------------------------------------------------------------------ -/

/-- C1: along every well-formed trace of the engine, every handler's
callback runs at most once; every handler whose callback ran was destroyed
immediately (the invocation and destruction ledgers are extended together
by `runCallback`, and invoked handlers are always destroyed); once a
handler is destroyed at some prefix of the trace it is never invoked
again; and the completion paths (child exit, HTTP transfer done) do invoke
the completed request's callback. -/
theorem handler_callback_exactly_once (env : Env) (evs : List Event)
    (hwf : wfTraceB env initState evs = true) :
    (∀ h, (run env initState evs).invocations.count h ≤ 1) ∧
    (∀ h ∈ (run env initState evs).invocations,
        h ∈ (run env initState evs).destroyed) ∧
    (∀ e1 e2, evs = e1 ++ e2 →
      ∀ h ∈ (run env initState e1).destroyed,
        (run env initState evs).invocations.count h =
          (run env initState e1).invocations.count h) ∧
    (∀ (st2 : EngineState) (i : Nat) (status : Int),
        i ∈ (step env st2 (Event.childExit i status)).invocations) ∧
    (∀ (st2 : EngineState) (m : DoneMsg) (rest2 : List DoneMsg),
        m.hid ∈ (step env st2 (Event.curlDone (m :: rest2))).invocations) := by
  obtain ⟨hI, _, _⟩ := run_inv env evs initState invInit hwf
  refine ⟨?_, hI.invocDestroyed, ?_, ?_, ?_⟩
  · exact fun h => List.nodup_iff_count_le_one.mp hI.invocNodup h
  · intro e1 e2 heq h hdes
    subst heq
    obtain ⟨hw1, hw2⟩ := wfTraceB_append env e1 e2 initState hwf
    obtain ⟨hI1, _, _⟩ := run_inv env e1 initState invInit hw1
    obtain ⟨_, ⟨news, hne, hnd⟩, _⟩ :=
      run_inv env e2 (run env initState e1) hI1 hw2
    have hrun : run env initState (e1 ++ e2) = run env (run env initState e1) e2 :=
      List.foldl_append _ _ _ _
    rw [hrun, hne, List.count_append]
    have hz : news.count h = 0 :=
      List.count_eq_zero.mpr (fun hmem => hnd h hmem hdes)
    omega
  · intro st2 i status
    have hspec := (onCloneExit_spec env st2 i status).1
    show i ∈ (onCloneExit env st2 i status).1.invocations
    rw [hspec]
    exact List.mem_append.mpr (Or.inr (by simp))
  · intro st2 m rest2
    have hspec := (finishRequestCurl_dispatch env st2 m.hid m.result m.code m.ebuf).1
    show m.hid ∈ (checkFinished env st2 (m :: rest2)).1.invocations
    by_cases hneg : (finishRequestCurl env st2 m.hid m.result m.code m.ebuf true).2 < 0
    · simp only [checkFinished, if_pos hneg]
      rw [cancelAll_invocations, hspec]
      exact List.mem_append.mpr (Or.inr (by simp))
    · simp only [checkFinished, if_neg hneg]
      obtain ⟨tail, htail⟩ := checkFinished_invocations_mono env rest2
        (finishRequestCurl env st2 m.hid m.result m.code m.ebuf true).1
      rw [htail, hspec]
      exact List.mem_append.mpr (Or.inl (List.mem_append.mpr (Or.inr (by simp))))

/-- C1 witness: a concrete well-formed trace (one HTTP request completing,
one clone request completing, one cancellation) evaluated through the
theorem. -/
theorem handler_callback_exactly_once_witness :
    wfTraceB env0 initState
      [Event.queueHttpEv ["https://aur/rpc"], Event.curlDone [⟨0, 0, 200, ""⟩],
       Event.queueCloneEv "pkg" "https://aur/pkg.git" false none,
       Event.childExit 1 0, Event.cancelAllEv] = true ∧
    (run env0 initState
      [Event.queueHttpEv ["https://aur/rpc"], Event.curlDone [⟨0, 0, 200, ""⟩],
       Event.queueCloneEv "pkg" "https://aur/pkg.git" false none,
       Event.childExit 1 0, Event.cancelAllEv]).invocations.count 0 ≤ 1 :=
  ⟨by decide,
   (handler_callback_exactly_once env0
      [Event.queueHttpEv ["https://aur/rpc"], Event.curlDone [⟨0, 0, 200, ""⟩],
       Event.queueCloneEv "pkg" "https://aur/pkg.git" false none,
       Event.childExit 1 0, Event.cancelAllEv] (by decide)).1 0⟩

/-- C2 counterexample: a fork-failure callback returns the negative value
`-7`, yet the engine does not invoke `CancelAll` (no exit is requested, the
runs-to-completion state is unchanged) and a subsequent `Wait` returns `0`,
not `-7`: `QueueCloneRequest` discards the fork-failure callback's return
value. -/
theorem negative_callback_not_global_abort_cex :
    envNeg.cb 0 (-5) ("failed to fork new process for git: " ++
        envNeg.sysStrerror 5) = -7 ∧
    (-7 : Int) < 0 ∧
    (run envNeg initState
        [Event.queueCloneEv "pkg" "u" false (some 5)]).callbackLog =
      [(0, -5, "failed to fork new process for git: resource unavailable")] ∧
    (run envNeg initState
        [Event.queueCloneEv "pkg" "u" false (some 5)]).exitRequested = false ∧
    wait envNeg []
        (run envNeg initState [Event.queueCloneEv "pkg" "u" false (some 5)]) =
      some (0, 0) := by
  decide

/-- C2 amended: only HTTP-transfer completion callbacks dispatched through
`CheckFinished` can terminate the engine: a negative return there triggers
`CancelAll` (the Active Request Set is emptied, exit code 1 is recorded)
and `CheckFinished` returns that negative value to the io/timer dispatch
(where sd-event drops it), so the subsequent `Wait` returns `-1` — not the
callback's own value.  Child-exit callbacks never trigger `CancelAll`
(their dispatch only removes the completed watch and leaves the exit state
untouched), and fork-failure callbacks' return values are discarded
entirely (state apart from the handler ledgers is unchanged). -/
theorem negative_callback_abort_paths (env : Env) (st stB stC : EngineState)
    (m : DoneMsg) (rest : List DoneMsg) (i : Nat) (status : Int)
    (repo url : String) (g : Bool) (e : Int)
    (hneg : env.cb m.hid m.code (curlError env m.result m.ebuf) < 0) :
    (checkFinished env st (m :: rest)).2 =
        env.cb m.hid m.code (curlError env m.result m.ebuf) ∧
    (checkFinished env st (m :: rest)).1.active = [] ∧
    (checkFinished env st (m :: rest)).1.exitRequested = true ∧
    (checkFinished env st (m :: rest)).1.exitCode = 1 ∧
    (∀ evs, wait env evs (checkFinished env st (m :: rest)).1 = some (-1, 0)) ∧
    (step env stB (Event.childExit i status)).exitRequested = stB.exitRequested ∧
    (step env stB (Event.childExit i status)).exitCode = stB.exitCode ∧
    (step env stB (Event.childExit i status)).active =
        stB.active.erase (ReqHandle.child i) ∧
    (step env stC (Event.queueCloneEv repo url g (some e))).exitRequested =
        stC.exitRequested ∧
    (step env stC (Event.queueCloneEv repo url g (some e))).active =
        stC.active := by
  have hr2 := (finishRequestCurl_dispatch env st m.hid m.result m.code m.ebuf).2
  have hneg2 : (finishRequestCurl env st m.hid m.result m.code m.ebuf true).2 < 0 := by
    rw [hr2]; exact hneg
  have hcf : checkFinished env st (m :: rest) =
      (cancelAll env (finishRequestCurl env st m.hid m.result m.code m.ebuf true).1,
       (finishRequestCurl env st m.hid m.result m.code m.ebuf true).2) := by
    simp only [checkFinished, if_pos hneg2]
  have hexit := cancelAll_exit env
    (finishRequestCurl env st m.hid m.result m.code m.ebuf true).1
  have hact := cancelAll_active env
    (finishRequestCurl env st m.hid m.result m.code m.ebuf true).1
  have hwait : ∀ evs, wait env evs (checkFinished env st (m :: rest)).1 =
      some (-1, 0) := by
    intro evs
    rw [hcf]
    rw [wait_empty env evs _ hact]
    simp [sdEventGetExitCode, hexit.1, hexit.2]
  have hchild := (onCloneExit_spec env stB i status).1
  have hclone := queueClone_forkFail env stC repo url g e
  refine ⟨by rw [hcf]; exact hr2, by rw [hcf]; exact hact, by rw [hcf]; exact hexit.1,
    by rw [hcf]; exact hexit.2, hwait, ?_, ?_, ?_, ?_, ?_⟩
  · show (onCloneExit env stB i status).1.exitRequested = stB.exitRequested
    rw [hchild]
  · show (onCloneExit env stB i status).1.exitCode = stB.exitCode
    rw [hchild]
  · show (onCloneExit env stB i status).1.active =
        stB.active.erase (ReqHandle.child i)
    rw [hchild]
  · show (queueClone env stC repo url g (some e)).exitRequested =
        stC.exitRequested
    rw [hclone]
  · show (queueClone env stC repo url g (some e)).active = stC.active
    rw [hclone]

/-- C2 witness: the amended claim evaluated with a callback returning
`-3` on a concrete completed transfer. -/
theorem negative_callback_abort_paths_witness :
    (checkFinished envNeg initState [⟨0, 0, 200, ""⟩]).2 =
        envNeg.cb 0 200 (curlError envNeg 0 "") ∧
    (checkFinished envNeg initState [⟨0, 0, 200, ""⟩]).1.active = [] ∧
    (checkFinished envNeg initState [⟨0, 0, 200, ""⟩]).1.exitRequested = true :=
  ⟨(negative_callback_abort_paths envNeg initState initState initState
      ⟨0, 0, 200, ""⟩ [] 0 0 "r" "u" false 5 (by decide)).1,
   (negative_callback_abort_paths envNeg initState initState initState
      ⟨0, 0, 200, ""⟩ [] 0 0 "r" "u" false 5 (by decide)).2.1,
   (negative_callback_abort_paths envNeg initState initState initState
      ⟨0, 0, 200, ""⟩ [] 0 0 "r" "u" false 5 (by decide)).2.2.1⟩

/-- C3: `CancelAll` always leaves the Active Request Set empty and records
exit code 1, so any subsequent `Wait` performs zero `sd_event_run` calls
(returns immediately, whatever events would be pending) and returns the
negative value `-1`. -/
theorem cancel_all_empties_and_wait_negative (env : Env) (st : EngineState)
    (evs : List Event) :
    (cancelAll env st).active = [] ∧
    (cancelAll env st).exitRequested = true ∧
    (cancelAll env st).exitCode = 1 ∧
    wait env evs (cancelAll env st) = some (-1, 0) := by
  refine ⟨cancelAll_active env st, (cancelAll_exit env st).1,
    (cancelAll_exit env st).2, ?_⟩
  rw [wait_empty env evs _ (cancelAll_active env st)]
  simp [sdEventGetExitCode, (cancelAll_exit env st).1, (cancelAll_exit env st).2]

/-- C4 counterexample: on a fresh idle engine, `Wait` returns `0`; after an
idle `CancelAll`, `Wait` returns `-1` — so `CancelAll` on an idle engine
does alter the return value of a subsequent `Wait` (it unconditionally
calls `sd_event_exit(event_, 1)`), contradicting the claim's no-op part. -/
theorem cancel_all_idle_changes_wait_cex :
    initState.active = [] ∧
    wait env0 [] initState = some (0, 0) ∧
    wait env0 [] (cancelAll env0 initState) = some (-1, 0) ∧
    wait env0 [] (cancelAll env0 initState) ≠ wait env0 [] initState := by
  decide

/-- C4 amended: `CancelAll` on an idle engine cancels nothing and invokes
no callback (it reduces to the unconditional `sd_event_exit(event_, 1)`),
and `CancelAll` is idempotent as a state transformer (a second call after a
first changes nothing); but because of that unconditional exit request, on
an engine that never exited before, it changes a subsequent `Wait` from
returning 0 to returning -1. -/
theorem cancel_all_idle_behavior (env : Env) (st st2 : EngineState)
    (h : st.active = []) :
    cancelAll env st = sdEventExit st 1 ∧
    (cancelAll env st).invocations = st.invocations ∧
    (cancelAll env st).callbackLog = st.callbackLog ∧
    (cancelAll env st).active = [] ∧
    cancelAll env (cancelAll env st2) = cancelAll env st2 ∧
    (∀ evs, wait env evs (cancelAll env st) = some (-1, 0)) := by
  refine ⟨?_, cancelAll_invocations env st, cancelAll_callbackLog env st,
    cancelAll_active env st, cancelAll_idem env st2, ?_⟩
  · simp only [cancelAll, h, List.length_nil, drainSteps]
  · intro evs
    rw [wait_empty env evs _ (cancelAll_active env st)]
    simp [sdEventGetExitCode, (cancelAll_exit env st).1, (cancelAll_exit env st).2]

/-- C4 witness: the amended claim evaluated on the fresh idle engine. -/
theorem cancel_all_idle_behavior_witness :
    cancelAll env0 initState = sdEventExit initState 1 ∧
    cancelAll env0 (cancelAll env0 initState) = cancelAll env0 initState :=
  ⟨(cancel_all_idle_behavior env0 initState initState (by decide)).1,
   (cancel_all_idle_behavior env0 initState initState (by decide)).2.2.2.2.1⟩

/-- C5: the error string handed to a dispatched HTTP completion callback is
empty exactly when the transport result is `CURLE_OK` — the HTTP response
code plays no role in it (`curlError` does not depend on the code, which is
passed separately as the status) — and on transport failure the
handler-local `error_buffer` is preferred when non-empty, else
`curl_easy_strerror`.  The hypothesis reflects libcurl's guarantee that
`curl_easy_strerror` never returns an empty string. -/
theorem http_completion_error_string (env : Env) (st : EngineState)
    (h0 : Nat) (result code : Int) (ebuf : String)
    (hs : result ≠ CURLE_OK → env.curlStrerror result ≠ "") :
    (finishRequestCurl env st h0 result code ebuf true).1.callbackLog =
        st.callbackLog ++ [(h0, code, curlError env result ebuf)] ∧
    (curlError env result ebuf = "" ↔ result = CURLE_OK) ∧
    (result ≠ CURLE_OK → ebuf ≠ "" → curlError env result ebuf = ebuf) ∧
    (result ≠ CURLE_OK → ebuf = "" →
        curlError env result ebuf = env.curlStrerror result) := by
  refine ⟨?_, ?_, ?_, ?_⟩
  · rw [(finishRequestCurl_dispatch env st h0 result code ebuf).1]
  · unfold curlError
    split_ifs with h1 h2
    · simp [h1]
    · exact iff_of_false (hs h1) h1
    · exact iff_of_false h2 h1
  · intro h1 h2
    unfold curlError
    rw [if_neg h1, if_neg h2]
  · intro h1 h2
    unfold curlError
    rw [if_neg h1, if_pos h2]

/-- C5 witness: a failed transfer (`CURLE_COULDNT_RESOLVE_HOST = 6`) with a
404 response code and an empty error buffer, evaluated through the
theorem. -/
theorem http_completion_error_string_witness :
    (curlError env0 6 "" = "" ↔ (6 : Int) = CURLE_OK) ∧
    (curlError env0 0 "" = "" ↔ (0 : Int) = CURLE_OK) :=
  ⟨(http_completion_error_string env0 initState 0 6 404 "" (by decide)).2.1,
   (http_completion_error_string env0 initState 0 0 404 "" (by decide)).2.1⟩

theorem newHandles_length : ∀ n k, (newHandles n k).length = k := by
  intro n k
  induction k generalizing n with
  | zero => rfl
  | succ k2 ih => simp [newHandles, ih]

/-- C6: socket-interest bookkeeping.  Removal interest on a registered
socket releases the source (it is gone from the live sources and recorded
as unref'd), drops the socket from `active_io_`, drops the duplicated fd
from the Translate-FD Table and closes it.  Add/modify interest on a
registered socket only updates the interest mask of its (enabled) source
and touches nothing else — no new fd.  Add/modify interest on an unknown
socket duplicates the descriptor, registers the duplicate enabled with the
requested interest, and records the duplicate→original mapping. -/
theorem socket_callback_bookkeeping
    (stA stB stC : SockState) (sA sB sC ioA ioB : Nat)
    (srcA srcB : IoSource) (actionB actionC : Int)
    (hioA : findVal sA stA.activeIo = some ioA)
    (hsrcA : findVal ioA stA.sources = some srcA)
    (hioB : findVal sB stB.activeIo = some ioB)
    (hsrcB : findVal ioB stB.sources = some srcB)
    (henB : srcB.enabled = true)
    (hactB : actionB = CURL_POLL_IN ∨ actionB = CURL_POLL_OUT ∨
      actionB = CURL_POLL_INOUT)
    (hioC : findVal sC stC.activeIo = none)
    (hactC : actionC = CURL_POLL_IN ∨ actionC = CURL_POLL_OUT ∨
      actionC = CURL_POLL_INOUT) :
    (findVal sA (socketCallback stA sA CURL_POLL_REMOVE).1.activeIo = none ∧
     ioA ∈ (socketCallback stA sA CURL_POLL_REMOVE).1.freed ∧
     findVal ioA (socketCallback stA sA CURL_POLL_REMOVE).1.sources = none ∧
     findVal srcA.fd (socketCallback stA sA CURL_POLL_REMOVE).1.translateFds = none ∧
     srcA.fd ∈ (socketCallback stA sA CURL_POLL_REMOVE).1.closed) ∧
    (findVal ioB (socketCallback stB sB actionB).1.sources =
        some { srcB with events := actionToRevents actionB } ∧
     (socketCallback stB sB actionB).1.activeIo = stB.activeIo ∧
     (socketCallback stB sB actionB).1.translateFds = stB.translateFds ∧
     (socketCallback stB sB actionB).1.closed = stB.closed ∧
     (socketCallback stB sB actionB).1.nextFd = stB.nextFd) ∧
    ((socketCallback stC sC actionC).1.sources =
        stC.sources ++ [(stC.nextSrc, ⟨stC.nextFd, actionToRevents actionC, true⟩)] ∧
     (socketCallback stC sC actionC).1.activeIo =
        stC.activeIo ++ [(sC, stC.nextSrc)] ∧
     (socketCallback stC sC actionC).1.translateFds =
        stC.translateFds ++ [(stC.nextFd, sC)]) := by
  have hneB : actionB ≠ CURL_POLL_REMOVE := by
    rcases hactB with h | h | h <;> rw [h] <;> decide
  have hneC : actionC ≠ CURL_POLL_REMOVE := by
    rcases hactC with h | h | h <;> rw [h] <;> decide
  refine ⟨?_, ?_, ?_⟩
  · rw [socketCallback_remove_spec stA sA ioA srcA hioA hsrcA]
    refine ⟨findVal_eraseKey_self sA _, by simp, findVal_eraseKey_self ioA _,
      findVal_eraseKey_self srcA.fd _, by simp⟩
  · rw [socketCallback_update_spec stB sB ioB actionB hioB hneB]
    obtain ⟨fdB, evB, enB⟩ := srcB
    simp only at henB
    subst henB
    refine ⟨?_, rfl, rfl, rfl, rfl⟩
    simp [setEnabled, setIoEvents, findVal_updateAssoc_self, hsrcB]
  · rw [socketCallback_add_spec stC sC actionC hioC hneC]
    exact ⟨rfl, rfl, rfl⟩

/-- C6 witness: one registered socket 9 (source 0 watching duplicate fd 5)
removed; the same socket modified to write interest; a fresh socket 11
registered for read interest. -/
theorem socket_callback_bookkeeping_witness :
    findVal 9 (socketCallback ⟨[(9, 0)], [(5, 9)], [(0, ⟨5, 1, true⟩)], [], [], 6, 1⟩
        9 CURL_POLL_REMOVE).1.activeIo = none ∧
    findVal 0 (socketCallback ⟨[(9, 0)], [(5, 9)], [(0, ⟨5, 1, true⟩)], [], [], 6, 1⟩
        9 CURL_POLL_OUT).1.sources = some ⟨5, 4, true⟩ ∧
    (socketCallback (⟨[], [], [], [], [], 3, 0⟩ : SockState)
        11 CURL_POLL_IN).1.activeIo = [(11, 0)] :=
  ⟨(socket_callback_bookkeeping
      ⟨[(9, 0)], [(5, 9)], [(0, ⟨5, 1, true⟩)], [], [], 6, 1⟩
      ⟨[(9, 0)], [(5, 9)], [(0, ⟨5, 1, true⟩)], [], [], 6, 1⟩
      ⟨[], [], [], [], [], 3, 0⟩ 9 9 11 0 0 ⟨5, 1, true⟩ ⟨5, 1, true⟩
      CURL_POLL_OUT CURL_POLL_IN (by decide) (by decide) (by decide) (by decide)
      (by decide) (by decide) (by decide) (by decide)).1.1,
   (socket_callback_bookkeeping
      ⟨[(9, 0)], [(5, 9)], [(0, ⟨5, 1, true⟩)], [], [], 6, 1⟩
      ⟨[(9, 0)], [(5, 9)], [(0, ⟨5, 1, true⟩)], [], [], 6, 1⟩
      ⟨[], [], [], [], [], 3, 0⟩ 9 9 11 0 0 ⟨5, 1, true⟩ ⟨5, 1, true⟩
      CURL_POLL_OUT CURL_POLL_IN (by decide) (by decide) (by decide) (by decide)
      (by decide) (by decide) (by decide) (by decide)).2.1.1,
   (socket_callback_bookkeeping
      ⟨[(9, 0)], [(5, 9)], [(0, ⟨5, 1, true⟩)], [], [], 6, 1⟩
      ⟨[(9, 0)], [(5, 9)], [(0, ⟨5, 1, true⟩)], [], [], 6, 1⟩
      ⟨[], [], [], [], [], 3, 0⟩ 9 9 11 0 0 ⟨5, 1, true⟩ ⟨5, 1, true⟩
      CURL_POLL_OUT CURL_POLL_IN (by decide) (by decide) (by decide) (by decide)
      (by decide) (by decide) (by decide) (by decide)).2.2.2.1⟩

/-- C7: a clone request targeting a path with an existing working copy
execs `git -C <repo> pull --quiet --ff-only` and labels its handler
"update"; without one it execs `git clone --quiet <url>` and labels it
"clone"; the label is recorded at submission time (also on the fork-failure
path, where no subprocess ever runs). -/
theorem clone_vs_update_argv (env : Env) (st : EngineState)
    (repo url : String) :
    (queueClone env st repo url true none).spawnLog =
        st.spawnLog ++ [["git", "-C", repo, "pull", "--quiet", "--ff-only"]] ∧
    (queueClone env st repo url true none).ops = st.ops ++ [(st.next, "update")] ∧
    (queueClone env st repo url false none).spawnLog =
        st.spawnLog ++ [["git", "clone", "--quiet", url]] ∧
    (queueClone env st repo url false none).ops = st.ops ++ [(st.next, "clone")] ∧
    (queueClone env st repo url true (some 1)).ops = st.ops ++ [(st.next, "update")] ∧
    (queueClone env st repo url false (some 1)).ops = st.ops ++ [(st.next, "clone")] := by
  refine ⟨?_, ?_, ?_, ?_, ?_, ?_⟩ <;> simp [queueClone, runCallback]

/-- C8: when `fork` fails with `errno = e` (`e > 0` on failure), the
callback runs synchronously before `QueueCloneRequest` returns, with the
negative status `-e` and the non-empty message embedding `strerror(e)`; no
watch is registered (the Active Request Set is unchanged), so `Wait` on an
engine holding only this request performs no event-loop iteration and
returns 0. -/
theorem fork_failure_synchronous_callback (env : Env) (st : EngineState)
    (repo url : String) (g : Bool) (e : Int) (he : 0 < e) :
    (queueClone env st repo url g (some e)).callbackLog =
        st.callbackLog ++ [(st.next, -e,
          "failed to fork new process for git: " ++ env.sysStrerror e)] ∧
    (-e < 0) ∧
    ("failed to fork new process for git: " ++ env.sysStrerror e ≠ "") ∧
    (queueClone env st repo url g (some e)).active = st.active ∧
    (queueClone env st repo url g (some e)).invocations =
        st.invocations ++ [st.next] ∧
    (st.active = [] → st.exitRequested = false → ∀ evs,
      wait env evs (queueClone env st repo url g (some e)) = some (0, 0)) := by
  have hspec := queueClone_forkFail env st repo url g e
  refine ⟨by rw [hspec], by omega,
    string_append_left_ne _ _ (by decide), by rw [hspec], by rw [hspec], ?_⟩
  intro h1 h2 evs
  have hact : (queueClone env st repo url g (some e)).active = [] := by
    rw [hspec]; exact h1
  rw [wait_empty env evs _ hact]
  have hexit : (queueClone env st repo url g (some e)).exitRequested = false := by
    rw [hspec]; exact h2
  simp [sdEventGetExitCode, hexit]

/-- C8 witness: fork failure with `errno = 5` on the fresh engine. -/
theorem fork_failure_synchronous_callback_witness :
    (queueClone env0 initState "pkg" "u" false (some 5)).callbackLog =
        [(0, -5, "failed to fork new process for git: " ++
          env0.sysStrerror 5)] ∧
    wait env0 [] (queueClone env0 initState "pkg" "u" false (some 5)) =
        some (0, 0) :=
  ⟨(fork_failure_synchronous_callback env0 initState "pkg" "u" false 5
      (by decide)).1,
   (fork_failure_synchronous_callback env0 initState "pkg" "u" false 5
      (by decide)).2.2.2.2.2 rfl rfl []⟩

/-- C9: a watched subprocess exiting with status `N` has its watch released
(dropped from the Active Request Set and unref'd) and its callback invoked
with status `N` and error `cloneExitError N`, which is
`"git exited with unexpected exit status N"` for `N ≠ 0` and `""` for
`N = 0`. -/
theorem clone_exit_status_and_error (env : Env) (st : EngineState)
    (i : Nat) (status : Int) :
    (step env st (Event.childExit i status)).active =
        st.active.erase (ReqHandle.child i) ∧
    (step env st (Event.childExit i status)).freedWatches =
        st.freedWatches ++ [i] ∧
    (step env st (Event.childExit i status)).callbackLog =
        st.callbackLog ++ [(i, status, cloneExitError status)] ∧
    cloneExitError 0 = "" ∧
    (status ≠ 0 → cloneExitError status =
        "git exited with unexpected exit status " ++ toString status) := by
  have hspec := (onCloneExit_spec env st i status).1
  refine ⟨?_, ?_, ?_, rfl, ?_⟩
  · show (onCloneExit env st i status).1.active = st.active.erase (ReqHandle.child i)
    rw [hspec]
  · show (onCloneExit env st i status).1.freedWatches = st.freedWatches ++ [i]
    rw [hspec]
  · show (onCloneExit env st i status).1.callbackLog =
        st.callbackLog ++ [(i, status, cloneExitError status)]
    rw [hspec]
  · intro h
    simp [cloneExitError, h]

/-- C9 witness: a child exiting with status 7 on a concrete state. -/
theorem clone_exit_status_and_error_witness :
    (step env0 initState (Event.childExit 3 7)).callbackLog =
        [(3, 7, cloneExitError 7)] ∧
    cloneExitError 7 = "git exited with unexpected exit status 7" :=
  ⟨(clone_exit_status_and_error env0 initState 3 7).2.2.1,
   (clone_exit_status_and_error env0 initState 3 7).2.2.2.2 (by decide)⟩

/-- C10: each HTTP submission registers exactly one transfer and one fresh
handler per URL produced by `Build` (`k` URLs give the `k` consecutive
fresh handles `newHandles st.next k`); a request whose `Build` yields no
URLs changes nothing, and `Wait` on an idle engine holding only such a
request returns 0 immediately; and along any well-formed continuation each
handler's callback runs at most once, so `k` URLs yield at most `k`
invocations. -/
theorem http_submission_per_url (env : Env) (st : EngineState)
    (urls : List String) (evs : List Event) (hI : Inv st)
    (hwf : wfTraceB env (queueHttp urls st) evs = true) :
    (queueHttp urls st).active = st.active ++ newHandles st.next urls.length ∧
    (queueHttp urls st).next = st.next + urls.length ∧
    (∀ n k, (newHandles n k).length = k) ∧
    queueHttp [] st = st ∧
    (st.active = [] → st.exitRequested = false → ∀ evs2,
      wait env evs2 (queueHttp [] st) = some (0, 0)) ∧
    (∀ h, (run env (queueHttp urls st) evs).invocations.count h ≤ 1) := by
  obtain ⟨h1, h2, _, _, _, _, _⟩ := queueHttp_spec urls st
  refine ⟨h1, h2, newHandles_length, rfl, ?_, ?_⟩
  · intro ha he evs2
    rw [show queueHttp [] st = st from rfl, wait_empty env evs2 st ha]
    simp [sdEventGetExitCode, he]
  · obtain ⟨hI2, _, _⟩ :=
      run_inv env evs (queueHttp urls st) (inv_queueHttp urls st hI) hwf
    exact fun h => List.nodup_iff_count_le_one.mp hI2.invocNodup h

/-- C10 witness: two URLs queued on the fresh engine, then a trivial
continuation. -/
theorem http_submission_per_url_witness :
    (queueHttp ["a", "b"] initState).active = newHandles 0 2 ∧
    (queueHttp ["a", "b"] initState).next = 2 :=
  ⟨(http_submission_per_url env0 initState ["a", "b"] [] invInit (by decide)).1,
   (http_submission_per_url env0 initState ["a", "b"] [] invInit (by decide)).2.1⟩

end Auracle
